import Mathlib

/-!
Shallow embedding of the prediction engine of microsoft-preflate-rs
(token predictor, tree predictor, compression-level estimator) and proofs
about its claims.

Byte strings are modelled as `List Nat`, machine integers as `Nat`
(the code never relies on wraparound on the paths modelled here),
fallible functions return `Option`.

The hash-chain data structure (`hash_chain.rs`) and the statistical codec
surface (`statistical_codec.rs`) are not part of the provided sources, so
they are modelled from the spec where noted; everything else is translated
from `predictor_state.rs`, `token_predictor.rs`, `tree_predictor.rs` and
`preflate_complevel_estimator.rs`.
-/

namespace Preflate

/-- Constant from `preflate_constants`: minimum match length. -/
def MIN_MATCH : Nat := 3

/-- Constant from `preflate_constants`: maximum match length. -/
def MAX_MATCH : Nat := 258

/-- Constant from `preflate_constants`: zlib lookahead margin. -/
def MIN_LOOKAHEAD : Nat := 262

/-! ## PredictorState::prefix_compare -/

/-- Helper for the extension loop of `PredictorState::prefix_compare`
(predictor_state.rs lines 112-120): counts how many consecutive positions
starting at index `i` hold equal bytes, examining at most `fuel` positions
(`fuel` stands for `max_len - i`). -/
def eqRun (s1 s2 : List Nat) (i fuel : Nat) : Nat :=
  match fuel with
  | 0 => 0
  | fuel' + 1 =>
    if s1.getD i 0 = s2.getD i 0 then eqRun s1 s2 (i + 1) fuel' + 1 else 0

/-- Embedding of `PredictorState::prefix_compare` (predictor_state.rs lines
102-121).  First the byte at index `best_len` is compared (skip-front
optimization), then the 3-byte prefix, then the match is extended from
index 3 up to `max_len`.  The Rust function asserts
`max_len >= 3 && s1.len() >= max_len && s2.len() >= max_len`; the theorems
carry that precondition explicitly, and out-of-range reads are total here
via `getD`. -/
def prefCompare (s1 s2 : List Nat) (bestLen maxLen : Nat) : Nat :=
  if s1.getD bestLen 0 ≠ s2.getD bestLen 0 then 0
  else if s1.getD 0 0 ≠ s2.getD 0 0 ∨ s1.getD 1 0 ≠ s2.getD 1 0 ∨
          s1.getD 2 0 ≠ s2.getD 2 0 then 0
  else 3 + eqRun s1 s2 3 (maxLen - 3)

theorem eqRun_le (s1 s2 : List Nat) (i fuel : Nat) : eqRun s1 s2 i fuel ≤ fuel := by
  induction fuel generalizing i with
  | zero => simp [eqRun]
  | succ n ih =>
    unfold eqRun
    split
    · exact Nat.succ_le_succ (ih (i + 1))
    · exact Nat.zero_le _

/-! ## Hash-chain cursor model and the hop functions

`hash_chain.rs` is not among the provided sources.  Following the spec
(§4.1), `iterate_from_head(hash, start_pos, max_dist)` walks the chain of
positions stored for `hash` newest-first; the cursor exposes `.dist()`
(current position minus walked position, strictly increasing along the
walk), `.valid()` (a head entry exists) and `.next()` (advance, returning
false when the chain is exhausted or when the next entry's distance
exceeds `max_dist`; the first entry is not checked against `max_dist`,
which is what makes the ZLIB quirk in `match_token` observable).

We therefore model the walk a predictor-state function sees as the list
of entry distances `chain : List Nat`, in walk order. -/

/-- Loop of `PredictorState::calculate_hops` (predictor_state.rs lines
240-262).  For each chain entry the prefix-compare length (computed with
`best_len - 1` as the skip-front index and `best_len` as `max_len`) is
taken; entries comparing `≥ best_len` bump the hop counter.  Reaching the
target distance returns the counter; overshooting it, exhausting the chain
or the chain cap is an error. -/
def calcHopsLoop (input : List Nat) (pos len targetDist maxDist : Nat) :
    List Nat → Nat → Nat → Option Nat
  | [], _, _ => none
  | dist :: rest, maxChain, hops =>
    let ml := prefCompare (input.drop (pos - dist)) (input.drop pos) (len - 1) len
    let hops' := if len ≤ ml then hops + 1 else hops
    if targetDist ≤ dist then
      if dist = targetDist then some hops' else none
    else
      match rest with
      | [] => none
      | d2 :: rest' =>
        if maxDist < d2 ∨ maxChain ≤ 1 then none
        else calcHopsLoop input pos len targetDist maxDist (d2 :: rest') (maxChain - 1) hops'

/-- Embedding of `PredictorState::calculate_hops` (predictor_state.rs lines
217-265) for a state with plaintext `input`, cursor position `pos`, window
size `windowSize` and current-hash chain walk `chain`.  Fails when fewer
than `targetLen` bytes remain, when the chain is empty, or when the loop
fails; the chain cap is `0xffff`. -/
def calculate_hops (input : List Nat) (pos windowSize : Nat) (chain : List Nat)
    (targetLen targetDist : Nat) : Option Nat :=
  let maxLen := min (input.length - pos) MAX_MATCH
  if maxLen < targetLen then none
  else
    match chain with
    | [] => none
    | d :: rest => calcHopsLoop input pos targetLen targetDist (min pos windowSize)
        (d :: rest) 65535 0

/-- Loop of `PredictorState::hop_match` (predictor_state.rs lines 287-305).
Entries comparing `≥ len` bump `current_hop`; when the bumped counter
equals the requested `hops` the entry's distance is returned.  Note the
counter is incremented before the comparison, inside the `ml ≥ len`
branch. -/
def hopMatchLoop (input : List Nat) (pos len hops maxDist : Nat) :
    List Nat → Nat → Option Nat
  | [], _ => none
  | dist :: rest, currentHop =>
    let ml := prefCompare (input.drop (pos - dist)) (input.drop pos) (len - 1) len
    if len ≤ ml ∧ currentHop + 1 = hops then some dist
    else
      let currentHop' := if len ≤ ml then currentHop + 1 else currentHop
      match rest with
      | [] => none
      | d2 :: rest' =>
        if maxDist < d2 then none
        else hopMatchLoop input pos len hops maxDist (d2 :: rest') currentHop'

/-- Embedding of `PredictorState::hop_match` (predictor_state.rs lines
269-306): inverse direction of `calculate_hops`, walking the same chain
(same hash, same position, same `min(cur_pos, window_size)` distance cap)
and returning the distance of the `hops`-th entry whose prefix-compare
length is at least `len`. -/
def hop_match (input : List Nat) (pos windowSize : Nat) (chain : List Nat)
    (len hops : Nat) : Option Nat :=
  let maxLen := min (input.length - pos) MAX_MATCH
  if maxLen < len then none
  else
    match chain with
    | [] => none
    | d :: rest => hopMatchLoop input pos len hops (min pos windowSize) (d :: rest) 0

theorem hopMatchLoop_zero (input : List Nat) (pos len maxDist : Nat)
    (chain : List Nat) (currentHop : Nat) :
    hopMatchLoop input pos len 0 maxDist chain currentHop = none := by
  induction chain generalizing currentHop with
  | nil => rfl
  | cons d rest ih =>
    unfold hopMatchLoop
    simp only
    split
    · omega
    · match rest with
      | [] => rfl
      | d2 :: rest' =>
        simp only
        split
        · rfl
        · exact ih _

/-- C9: a request for zero hops always fails: because `current_hop` is
incremented before being compared with `hops`, `hop_match(len, 0)` never
returns `Ok`, for every predictor state (plaintext, position, window,
chain) and every length, even when the chain head is a valid match. -/
theorem hop_match_zero_hops_never_ok (input : List Nat) (pos windowSize : Nat)
    (chain : List Nat) (len : Nat) :
    hop_match input pos windowSize chain len 0 = none := by
  unfold hop_match
  simp only
  split
  · rfl
  · match chain with
    | [] => rfl
    | d :: rest => exact hopMatchLoop_zero _ _ _ _ _ _

/-- C10: under the asserted precondition (`max_len ≥ 3`, both slices at
least `max_len` long, `best_len < max_len`), `prefix_compare` returns
either 0 or a value in `[3, max_len]` — never 1 or 2 — and it returns 0
whenever the bytes at index `best_len` differ, even if the two slices
share a 3-byte prefix. -/
theorem prefCompare_range (s1 s2 : List Nat) (bestLen maxLen : Nat)
    (hml : 3 ≤ maxLen) (h1 : maxLen ≤ s1.length) (h2 : maxLen ≤ s2.length)
    (hb : bestLen < maxLen) :
    (prefCompare s1 s2 bestLen maxLen = 0 ∨
      (3 ≤ prefCompare s1 s2 bestLen maxLen ∧
        prefCompare s1 s2 bestLen maxLen ≤ maxLen)) ∧
    (s1.getD bestLen 0 ≠ s2.getD bestLen 0 → prefCompare s1 s2 bestLen maxLen = 0) := by
  constructor
  · unfold prefCompare
    split
    · exact Or.inl rfl
    · split
      · exact Or.inl rfl
      · refine Or.inr ⟨Nat.le_add_right 3 _, ?_⟩
        have := eqRun_le s1 s2 3 (maxLen - 3)
        omega
  · intro hne
    unfold prefCompare
    rw [if_pos hne]

/-- Witness for C10 at a concrete input. -/
theorem prefCompare_range_witness :
    (prefCompare [1, 2, 3, 4] [1, 2, 3, 5] 3 4 = 0 ∨
      (3 ≤ prefCompare [1, 2, 3, 4] [1, 2, 3, 5] 3 4 ∧
        prefCompare [1, 2, 3, 4] [1, 2, 3, 5] 3 4 ≤ 4)) ∧
    (([1, 2, 3, 4] : List Nat).getD 3 0 ≠ ([1, 2, 3, 5] : List Nat).getD 3 0 →
      prefCompare [1, 2, 3, 4] [1, 2, 3, 5] 3 4 = 0) :=
  prefCompare_range [1, 2, 3, 4] [1, 2, 3, 5] 3 4 (by decide) (by decide)
    (by decide) (by decide)

/-- C4 counterexample: `hop_match` is not unconditionally the inverse of
`calculate_hops`.  Plaintext `[1,1,1,2,1,1,1,3]`, cursor at 4, chain walk
`[4]` (position 0 shares the 3-byte hash window `1,1,1` with position 4),
target `len=4, dist=4`: the bytes at distance 4 are not a length-4 match
(`...2` vs `...3`), so `calculate_hops` reaches the target distance with a
hop count of 0 and returns `Ok 0`, yet `hop_match(4, 0)` errors instead of
returning distance 4. -/
theorem calculate_hops_hop_match_not_inverse :
    calculate_hops [1, 1, 1, 2, 1, 1, 1, 3] 4 32768 [4] 4 4 = some 0 ∧
    hop_match [1, 1, 1, 2, 1, 1, 1, 3] 4 32768 [4] 4 0 = none := by
  constructor <;> rfl

theorem calcHops_hopMatch_loop (input : List Nat) (pos len targetDist maxDist : Nat)
    (hgen : len ≤ prefCompare (input.drop (pos - targetDist)) (input.drop pos)
      (len - 1) len) :
    ∀ (chain : List Nat) (maxChain hops h : Nat),
      calcHopsLoop input pos len targetDist maxDist chain maxChain hops = some h →
      hops < h ∧ hopMatchLoop input pos len h maxDist chain hops = some targetDist := by
  intro chain
  induction chain with
  | nil => intro maxChain hops h hok; exact absurd hok (by simp [calcHopsLoop])
  | cons dist rest ih =>
    intro maxChain hops h hok
    unfold calcHopsLoop at hok
    unfold hopMatchLoop
    simp only at hok ⊢
    by_cases htg : targetDist ≤ dist
    · rw [if_pos htg] at hok
      by_cases heq : dist = targetDist
      · rw [if_pos heq] at hok
        subst heq
        rw [if_pos hgen] at hok
        have hh : h = hops + 1 := by
          have := Option.some.inj hok; omega
        subst hh
        rw [if_pos ⟨hgen, rfl⟩]
        exact ⟨Nat.lt_succ_self _, rfl⟩
      · rw [if_neg heq] at hok
        exact absurd hok (by simp)
    · rw [if_neg htg] at hok
      match rest with
      | [] => exact absurd hok (by simp)
      | d2 :: rest' =>
        simp only at hok
        by_cases hstop : maxDist < d2 ∨ maxChain ≤ 1
        · rw [if_pos hstop] at hok
          exact absurd hok (by simp)
        · rw [if_neg hstop] at hok
          have ihres := ih (maxChain - 1) (if len ≤ prefCompare
            (input.drop (pos - dist)) (input.drop pos) (len - 1) len
            then hops + 1 else hops) h hok
          have hd2 : ¬ maxDist < d2 := fun hc => hstop (Or.inl hc)
          constructor
          · rcases ihres with ⟨hlt, _⟩
            split at hlt <;> omega
          · have hnotret : ¬ (len ≤ prefCompare (input.drop (pos - dist))
                (input.drop pos) (len - 1) len ∧ hops + 1 = h) := by
              rintro ⟨hml, hh⟩
              rcases ihres with ⟨hlt, _⟩
              rw [if_pos hml] at hlt
              omega
            rw [if_neg hnotret]
            simp only
            rw [if_neg hd2]
            exact ihres.2

/-- C4 amended: for every predictor state and target reference whose
plaintext actually matches at the target distance for the target length
(prefix-compare with skip-front index `best_len − 1` at least
`target.len`), if `calculate_hops(target)` returns `Ok(h)` then
`hop_match(target.len, h)` on the same state returns `Ok(target.dist)`. -/
theorem calculate_hops_hop_match_inverse (input : List Nat) (pos windowSize : Nat)
    (chain : List Nat) (targetLen targetDist h : Nat)
    (hgen : targetLen ≤ prefCompare (input.drop (pos - targetDist)) (input.drop pos)
      (targetLen - 1) targetLen)
    (hok : calculate_hops input pos windowSize chain targetLen targetDist = some h) :
    hop_match input pos windowSize chain targetLen h = some targetDist := by
  unfold calculate_hops at hok
  unfold hop_match
  simp only at hok ⊢
  by_cases hguard : min (input.length - pos) MAX_MATCH < targetLen
  · rw [if_pos hguard] at hok
    exact absurd hok (by simp)
  · rw [if_neg hguard] at hok
    rw [if_neg hguard]
    match chain with
    | [] => exact absurd hok (by simp)
    | d :: rest =>
      exact (calcHops_hopMatch_loop input pos targetLen targetDist
        (min pos windowSize) hgen (d :: rest) 65535 0 h hok).2

/-- Witness for the amended C4 at a concrete state: all-ones plaintext,
cursor at 4, chain `[1]`, target `len=4, dist=1`; `calculate_hops` returns
`Ok 1` and `hop_match(4, 1)` returns distance 1. -/
theorem calculate_hops_hop_match_inverse_witness :
    hop_match [1, 1, 1, 1, 1, 1, 1, 1] 4 32768 [1] 4 1 = some 1 :=
  calculate_hops_hop_match_inverse [1, 1, 1, 1, 1, 1, 1, 1] 4 32768 [1] 4 1 1
    (by decide) (by decide)

/-! ## PredictorState::match_token -/

/-- Result type of `PredictorState::match_token` (predictor_state.rs lines
15-22); `Success` carries the reference's length and distance. -/
inductive MatchResult where
  | Success (len dist : Nat)
  | DistanceLargerThanHop0 (d maxD : Nat)
  | NoInput
  | NoMoreMatchesFound (startLen lastDist : Nat)
  | MaxChainExceeded
deriving DecidableEq

/-- The parameter fields of `PreflateParameters` consulted by
`match_token`, together with the window size (`window_bytes` of
`PredictorState`). -/
structure MatchParams where
  windowSize : Nat
  matchesToStartDetected : Bool
  veryFarMatchesDetected : Bool
  maxChain : Nat
  niceLength : Nat
  goodLength : Nat
deriving DecidableEq

/-- `max_dist_to_start` of `match_token` (predictor_state.rs lines
130-135): the distance that would reach back to the start of the input,
minus one unless `matches_to_start_detected`. -/
def maxDistToStart (p : MatchParams) (startPos : Nat) : Nat :=
  startPos - (if p.matchesToStartDetected then 0 else 1)

/-- `cur_max_dist_hop0` of `match_token` (predictor_state.rs lines
137-146): distance cap applied to the head chain entry. -/
def curMaxDistHop0 (p : MatchParams) (startPos : Nat) : Nat :=
  if p.veryFarMatchesDetected then min (maxDistToStart p startPos) p.windowSize
  else min (maxDistToStart p startPos) (p.windowSize - MIN_LOOKAHEAD)

/-- `cur_max_dist_hop1_plus` of `match_token` (predictor_state.rs lines
137-146): distance cap applied to every later chain entry. -/
def curMaxDistHop1Plus (p : MatchParams) (startPos : Nat) : Nat :=
  if p.veryFarMatchesDetected then curMaxDistHop0 p startPos
  else min (maxDistToStart p startPos) (p.windowSize - MIN_LOOKAHEAD - 1)

/-- Main loop of `match_token` (predictor_state.rs lines 175-212).  The
current best length starts at `prev_len`; only strictly longer candidates
replace the best; a candidate reaching `nice_len` short-circuits.  The
cursor's `next()` fails when the rest of the chain is empty or its next
entry exceeds the hop-1+ cap; after a successful `next()` the chain
counter is decremented and hitting zero stops the search.  (In the source
`max_chain` is a `u32` that never enters the loop at 0 on the modelled
paths; `Nat` saturation at 0 stands in for that.)  The `[]` case is
unreachable from `match_token`, which always passes a nonempty walk. -/
def matchLoop (inp : List Nat) (startPos maxLen niceLen hop1Plus : Nat) :
    List Nat → Nat → Nat → Option (Nat × Nat) → MatchResult
  | [], _, _, _ => MatchResult.MaxChainExceeded
  | dist :: rest, maxChain, bestLen, best =>
    let ml := prefCompare (inp.drop (startPos - dist)) (inp.drop startPos) bestLen maxLen
    if bestLen < ml ∧ niceLen ≤ ml then MatchResult.Success ml dist
    else
      let bestLen' := if bestLen < ml then ml else bestLen
      let best' := if bestLen < ml then some (ml, dist) else best
      match rest with
      | [] =>
        match best' with
        | some (l, d) => MatchResult.Success l d
        | none => MatchResult.NoMoreMatchesFound ml dist
      | d2 :: rest' =>
        if hop1Plus < d2 then
          match best' with
          | some (l, d) => MatchResult.Success l d
          | none => MatchResult.NoMoreMatchesFound ml dist
        else if maxChain - 1 = 0 then
          match best' with
          | some (l, d) => MatchResult.Success l d
          | none => MatchResult.MaxChainExceeded
        else matchLoop inp startPos maxLen niceLen hop1Plus (d2 :: rest') (maxChain - 1)
          bestLen' best'

/-- Embedding of `PredictorState::match_token` (predictor_state.rs lines
123-213) for a state with plaintext `inp`, cursor position `pos` and chain
walk `chain` for the requested hash.  Checks the input guard, computes the
two distance caps, the chain bound (`max_chain >>= 2` when
`prev_len ≥ good_length` and no explicit depth was given) and `nice_len`,
fires the ZLIB quirk when the head entry exceeds the hop-0 cap (before
any prefix comparison), and otherwise runs the search loop.  An empty
chain walk is unreachable in the source (the head array defaults to
position 0, so the quirk check fires instead); it is mapped to
`NoMoreMatchesFound 0 0` and no theorem relies on it. -/
def match_token (p : MatchParams) (inp : List Nat) (pos : Nat) (chain : List Nat)
    (prevLen offset maxDepth : Nat) : MatchResult :=
  let startPos := pos + offset
  let maxLen := min (inp.length - startPos) MAX_MATCH
  if maxLen < max (prevLen + 1) MIN_MATCH then MatchResult.NoInput
  else
    match chain with
    | [] => MatchResult.NoMoreMatchesFound 0 0
    | dist :: rest =>
      if curMaxDistHop0 p startPos < dist then
        MatchResult.DistanceLargerThanHop0 dist (curMaxDistHop0 p startPos)
      else
        let maxChain := if 0 < maxDepth then maxDepth
          else if p.goodLength ≤ prevLen then p.maxChain / 4 else p.maxChain
        let niceLen := if 0 < maxDepth then maxLen else min p.niceLength maxLen
        matchLoop inp startPos maxLen niceLen (curMaxDistHop1Plus p startPos)
          (dist :: rest) maxChain prevLen none

/-- C5 counterexample: with `very_far_matches_detected = false`, window
32768 and start position 100 (`max_dist_to_start = 99`), the hop-1+ cap is
`min(99, 32505) = 99`, which is not `hop0 − 1 = 98`: the claim's
`hop1_plus = hop0 − 1` fails whenever `max_dist_to_start` is below
`window − 262`. -/
theorem match_token_hop1_cap_counterexample :
    curMaxDistHop1Plus ⟨32768, false, false, 4096, 258, 32⟩ 100 = 99 ∧
    curMaxDistHop0 ⟨32768, false, false, 4096, 258, 32⟩ 100 - 1 = 98 ∧
    curMaxDistHop1Plus ⟨32768, false, false, 4096, 258, 32⟩ 100 ≠
      curMaxDistHop0 ⟨32768, false, false, 4096, 258, 32⟩ 100 - 1 := by
  decide

/-- C5 amended: with `very_far_matches_detected` false, the hop-0 cap is
`min(max_dist_to_start, window − 262)` and the hop-1+ cap is
`min(max_dist_to_start, window − 263)` (equal to `hop0 − 1` only when
`max_dist_to_start ≥ window − 262`); and whenever the input guard passes
and the first chain entry's distance exceeds the hop-0 cap, `match_token`
returns `DistanceLargerThanHop0` carrying that distance and the cap,
before any prefix comparison. -/
theorem match_token_caps_and_quirk (p : MatchParams) (inp : List Nat)
    (pos offset : Nat) (d : Nat) (rest : List Nat) (prevLen maxDepth : Nat)
    (hvf : p.veryFarMatchesDetected = false)
    (hinput : ¬ min (inp.length - (pos + offset)) MAX_MATCH < max (prevLen + 1) MIN_MATCH)
    (hd : curMaxDistHop0 p (pos + offset) < d) :
    curMaxDistHop0 p (pos + offset)
        = min (maxDistToStart p (pos + offset)) (p.windowSize - MIN_LOOKAHEAD) ∧
    curMaxDistHop1Plus p (pos + offset)
        = min (maxDistToStart p (pos + offset)) (p.windowSize - MIN_LOOKAHEAD - 1) ∧
    match_token p inp pos (d :: rest) prevLen offset maxDepth
        = MatchResult.DistanceLargerThanHop0 d (curMaxDistHop0 p (pos + offset)) := by
  refine ⟨by simp [curMaxDistHop0, hvf], by simp [curMaxDistHop1Plus, hvf], ?_⟩
  unfold match_token
  rw [if_neg hinput]
  simp only
  rw [if_pos hd]

/-- Witness for the amended C5 at a concrete state: window 32768, start
position 100, head entry at distance 100 (beyond the hop-0 cap 99). -/
theorem match_token_caps_and_quirk_witness :
    curMaxDistHop0 ⟨32768, false, false, 4096, 258, 32⟩ (90 + 10)
        = min (maxDistToStart ⟨32768, false, false, 4096, 258, 32⟩ (90 + 10))
            (32768 - MIN_LOOKAHEAD) ∧
    curMaxDistHop1Plus ⟨32768, false, false, 4096, 258, 32⟩ (90 + 10)
        = min (maxDistToStart ⟨32768, false, false, 4096, 258, 32⟩ (90 + 10))
            (32768 - MIN_LOOKAHEAD - 1) ∧
    match_token ⟨32768, false, false, 4096, 258, 32⟩ (List.replicate 110 7) 90
        [100, 3] 0 10 0
        = MatchResult.DistanceLargerThanHop0 100
            (curMaxDistHop0 ⟨32768, false, false, 4096, 258, 32⟩ (90 + 10)) :=
  match_token_caps_and_quirk ⟨32768, false, false, 4096, 258, 32⟩
    (List.replicate 110 7) 90 10 100 [3] 0 0 rfl (by decide) (by decide)

/-! ## TokenPredictor: the TokenCount correction -/

/-- The `TokenCount` correction value emitted by
`TokenPredictor::predict_block` for a non-stored block
(token_predictor.rs lines 90-101): `len + 1` when the block ends at an
unexpected point or holds more tokens than expected, `0` otherwise. -/
def tokenCountCorrection (numTokens maxTokenCount : Nat) (lastBlock : Bool) : Nat :=
  if (lastBlock = false ∧ numTokens ≠ maxTokenCount) ∨ maxTokenCount < numTokens then
    numTokens + 1
  else 0

/-- The block size reconstructed by `TokenPredictor::recreate_block` from
a decoded `TokenCount` correction (token_predictor.rs lines 260-265):
`max_token_count` when the decoded value is 0, the value minus one
otherwise. -/
def recreateBlockSize (decoded maxTokenCount : Nat) : Nat :=
  if decoded = 0 then maxTokenCount else decoded - 1

/-- C6: `predict_block` emits a `TokenCount` of 0 exactly when the token
count equals `max_token_count`, or the block is the last block and its
token count does not exceed `max_token_count`; in every other case it
emits the count plus one.  Symmetrically, `recreate_block` interprets a
decoded 0 as `max_token_count` tokens and any nonzero `v` as `v − 1`
tokens. -/
theorem tokenCount_correction_spec (n m v : Nat) (last : Bool) :
    (tokenCountCorrection n m last = 0 ↔ (n = m ∨ (last = true ∧ n ≤ m))) ∧
    (¬ (n = m ∨ (last = true ∧ n ≤ m)) → tokenCountCorrection n m last = n + 1) ∧
    recreateBlockSize 0 m = m ∧
    (v ≠ 0 → recreateBlockSize v m = v - 1) := by
  refine ⟨?_, ?_, rfl, ?_⟩
  · unfold tokenCountCorrection
    split <;> rename_i h <;> cases last <;> simp_all <;> omega
  · intro h
    unfold tokenCountCorrection
    split <;> rename_i hc
    · rfl
    · cases last <;> simp_all <;> omega
  · intro hv
    unfold recreateBlockSize
    rw [if_neg hv]

/-- Witness for C6 at concrete inputs, exercising the nonzero decode
branch through the theorem. -/
theorem tokenCount_correction_spec_witness :
    recreateBlockSize 7 10 = 7 - 1 :=
  (tokenCount_correction_spec 5 5 7 true).2.2.2 (by decide)

/-! ## TreePredictor: RLE code-type prediction -/

/-- The four RLE tree-code types of the dynamic Huffman header
(`TreeCodeType` in huffman_encoding, used by tree_predictor.rs). -/
inductive TreeCodeType where
  | Code
  | Repeat
  | ZeroShort
  | ZeroLong
deriving DecidableEq

/-- Length of the run of entries equal to `p` at the front of a list;
mirrors the `while curlen < len && s[curlen] == code` loops of
tree_predictor.rs. -/
def runEq : List Nat → Nat → Nat
  | [], _ => 0
  | x :: xs, p => if x = p then runEq xs p + 1 else 0

/-- Length of the run of zeros at the front of a list, examining at most
`n` entries; mirrors the bounded zero-counting loop of
`predict_code_type` (tree_predictor.rs lines 321-324). -/
def cappedZeroRun : List Nat → Nat → Nat
  | _, 0 => 0
  | [], _ + 1 => 0
  | x :: xs, n + 1 => if x = 0 then cappedZeroRun xs n + 1 else 0

theorem cappedZeroRun_eq_min (l : List Nat) : ∀ n, cappedZeroRun l n = min (runEq l 0) n := by
  induction l with
  | nil => intro n; cases n <;> simp [cappedZeroRun, runEq]
  | cons x xs ih =>
    intro n
    cases n with
    | zero => simp [cappedZeroRun]
    | succ m =>
      show (if x = 0 then cappedZeroRun xs m + 1 else 0) =
        min (if x = 0 then runEq xs 0 + 1 else 0) (m + 1)
      by_cases hx : x = 0
      · rw [if_pos hx, if_pos hx, ih m]; omega
      · rw [if_neg hx, if_neg hx]; simp

theorem runEq_le_length (l : List Nat) (p : Nat) : runEq l p ≤ l.length := by
  induction l with
  | nil => simp [runEq]
  | cons x xs ih =>
    show (if x = p then runEq xs p + 1 else 0) ≤ xs.length + 1
    split
    · omega
    · exact Nat.zero_le _

theorem runEq_pos_head (x p : Nat) (xs : List Nat) (h : 1 ≤ runEq (x :: xs) p) : x = p := by
  by_contra hc
  have : runEq (x :: xs) p = 0 := by
    show (if x = p then runEq xs p + 1 else 0) = 0
    rw [if_neg hc]
  omega

/-- Embedding of `predict_code_type` (tree_predictor.rs lines 318-346).
If the first symbol is 0, leading zeros are counted starting from index 1
up to `min(len, 11)`; `ZeroLong` at 11, `ZeroShort` at 3.  Otherwise, if a
previous code exists, the run of symbols equal to the previous code is
counted from index 0; `Repeat` at 3.  Every other case is `Code`. -/
def predict_code_type (symBitLen : List Nat) (previousCode : Option Nat) : TreeCodeType :=
  let code := symBitLen.getD 0 0
  if code = 0 then
    let maxCurLen := min symBitLen.length 11
    let curlen := 1 + cappedZeroRun (symBitLen.drop 1) (maxCurLen - 1)
    if 11 ≤ curlen then TreeCodeType.ZeroLong
    else if 3 ≤ curlen then TreeCodeType.ZeroShort
    else TreeCodeType.Code
  else
    match previousCode with
    | some prev =>
      if 3 ≤ runEq symBitLen prev then TreeCodeType.Repeat else TreeCodeType.Code
    | none => TreeCodeType.Code

/-- C7: for every non-empty bit-length slice and optional previous code,
`predict_code_type` returns `ZeroLong` iff the first symbol is 0 and the
leading-zero run (counted up to `min(len, 11)`) reaches 11; `ZeroShort`
iff the first symbol is 0 and that run is in `[3, 10]`; `Repeat` iff the
first symbol is nonzero, the previous code is present and equal to it, and
the run of symbols equal to it is at least 3; and `Code` in all remaining
cases.  (The run conditions are stated through the uncapped leading runs,
to which the capped counts of the code are provably equivalent.) -/
theorem predict_code_type_cases (s : List Nat) (prev : Option Nat) (hne : s ≠ []) :
    (predict_code_type s prev = TreeCodeType.ZeroLong ↔
      (s.getD 0 0 = 0 ∧ 11 ≤ runEq s 0)) ∧
    (predict_code_type s prev = TreeCodeType.ZeroShort ↔
      (s.getD 0 0 = 0 ∧ 3 ≤ runEq s 0 ∧ runEq s 0 ≤ 10)) ∧
    (predict_code_type s prev = TreeCodeType.Repeat ↔
      (s.getD 0 0 ≠ 0 ∧ prev = some (s.getD 0 0) ∧ 3 ≤ runEq s (s.getD 0 0))) ∧
    (predict_code_type s prev = TreeCodeType.Code ↔
      (¬(s.getD 0 0 = 0 ∧ 11 ≤ runEq s 0) ∧
       ¬(s.getD 0 0 = 0 ∧ 3 ≤ runEq s 0 ∧ runEq s 0 ≤ 10) ∧
       ¬(s.getD 0 0 ≠ 0 ∧ prev = some (s.getD 0 0) ∧ 3 ≤ runEq s (s.getD 0 0)))) := by
  obtain ⟨x, xs, rfl⟩ : ∃ x xs, s = x :: xs := by
    cases s with
    | nil => exact absurd rfl hne
    | cons a l => exact ⟨a, l, rfl⟩
  have hgd : (x :: xs).getD 0 0 = x := rfl
  rw [hgd]
  by_cases hx : x = 0
  · subst hx
    have hrun : runEq (0 :: xs) 0 = runEq xs 0 + 1 := by
      show (if (0 : Nat) = 0 then runEq xs 0 + 1 else 0) = runEq xs 0 + 1
      rw [if_pos rfl]
    have hL := runEq_le_length xs 0
    have hpct : predict_code_type (0 :: xs) prev =
        (if 11 ≤ 1 + min (runEq xs 0) (min (xs.length + 1) 11 - 1) then
          TreeCodeType.ZeroLong
         else if 3 ≤ 1 + min (runEq xs 0) (min (xs.length + 1) 11 - 1) then
          TreeCodeType.ZeroShort
         else TreeCodeType.Code) := by
      unfold predict_code_type
      simp only [List.getD_cons_zero, List.drop_succ_cons, List.drop_zero,
        List.length_cons, if_pos rfl, if_true, cappedZeroRun_eq_min]
    rw [hpct, hrun]
    clear hpct hrun hgd
    split_ifs with h1 h2 <;> refine ⟨?_, ?_, ?_, ?_⟩ <;> simp_all <;> omega
  · cases prev with
    | none =>
      have hpct : predict_code_type (x :: xs) none = TreeCodeType.Code := by
        unfold predict_code_type
        rw [if_neg (by simpa using hx)]
      rw [hpct]
      refine ⟨?_, ?_, ?_, ?_⟩ <;> simp_all
    | some p =>
      by_cases hrep : 3 ≤ runEq (x :: xs) p
      · have hpx : x = p := runEq_pos_head x p xs (by omega)
        subst hpx
        have hpct : predict_code_type (x :: xs) (some x) = TreeCodeType.Repeat := by
          unfold predict_code_type
          rw [if_neg (by simpa using hx)]
          simp only
          rw [if_pos hrep]
        rw [hpct]
        refine ⟨?_, ?_, ?_, ?_⟩ <;> simp_all
      · have hpct : predict_code_type (x :: xs) (some p) = TreeCodeType.Code := by
          unfold predict_code_type
          rw [if_neg (by simpa using hx)]
          simp only
          rw [if_neg hrep]
        rw [hpct]
        by_cases hpx : p = x
        · subst hpx
          refine ⟨?_, ?_, ?_, ?_⟩ <;> simp_all
        · refine ⟨?_, ?_, ?_, ?_⟩ <;> simp_all

/-- Witness for C7 at the concrete slice `[5, 5, 5, 5]` with previous
code 5: the predictor returns `Repeat`. -/
theorem predict_code_type_cases_witness :
    predict_code_type [5, 5, 5, 5] (some 5) = TreeCodeType.Repeat ↔
      (([5, 5, 5, 5] : List Nat).getD 0 0 ≠ 0 ∧
        (some 5 : Option Nat) = some (([5, 5, 5, 5] : List Nat).getD 0 0) ∧
        3 ≤ runEq [5, 5, 5, 5] (([5, 5, 5, 5] : List Nat).getD 0 0)) :=
  (predict_code_type_cases [5, 5, 5, 5] (some 5) (by decide)).2.2.1

/-! ## TreePredictor: trailing-zero stripping of the code-length tree -/

/-- The fixed transmission order of the 19 code-length codes
(`TREE_CODE_ORDER_TABLE` in preflate_constants). -/
def TREE_CODE_ORDER_TABLE : List Nat :=
  [16, 17, 18, 0, 8, 7, 9, 6, 10, 5, 11, 4, 12, 3, 13, 2, 14, 1, 15]

/-- The stripping loop of `calc_tc_lengths_without_trailing_zeros`
(tree_predictor.rs lines 159-167): starting from `len`, decrement while
`len > 4` and the code length at position `TREE_CODE_ORDER_TABLE[len-1]`
is zero.  The loop is applied to the raw `calc_bit_lengths` output, whose
length can be below 19 (hence the later `resize(CODETREE_CODE_COUNT, 0)`
in the callers); for input lengths 5-11 the table can then name an index
at or beyond the array length, where the Rust indexing would panic — the
embedding totalizes such reads as 0 via `getD`, and no theorem below
relies on that collapsed error path. -/
def tcStrip (bl : List Nat) : Nat → Nat
  | 0 => 0
  | n + 1 =>
    if 4 < n + 1 ∧ bl.getD (TREE_CODE_ORDER_TABLE.getD n 0) 0 = 0 then tcStrip bl n
    else n + 1

/-- Embedding of `calc_tc_lengths_without_trailing_zeros`
(tree_predictor.rs lines 159-167). -/
def calc_tc_lengths_without_trailing_zeros (bl : List Nat) : Nat :=
  tcStrip bl bl.length

theorem tcStrip_le (bl : List Nat) : ∀ len, tcStrip bl len ≤ len := by
  intro len
  induction len with
  | zero => simp [tcStrip]
  | succ n ih =>
    unfold tcStrip
    split
    · omega
    · omega

theorem tcStrip_ge (bl : List Nat) : ∀ len, 4 ≤ len → 4 ≤ tcStrip bl len := by
  intro len
  induction len with
  | zero => omega
  | succ n ih =>
    intro h
    unfold tcStrip
    split <;> rename_i hc
    · exact ih (by omega)
    · omega

theorem tcStrip_zero_tail (bl : List Nat) : ∀ len, len ≤ 19 →
    (∀ i, len ≤ i → i < 19 → bl.getD (TREE_CODE_ORDER_TABLE.getD i 0) 0 = 0) →
    ∀ i, tcStrip bl len ≤ i → i < 19 →
      bl.getD (TREE_CODE_ORDER_TABLE.getD i 0) 0 = 0 := by
  intro len
  induction len with
  | zero =>
    intro _ hP i hi hi19
    exact hP i (Nat.zero_le _) hi19
  | succ n ih =>
    intro hle hP i hi hi19
    unfold tcStrip at hi
    split at hi <;> rename_i hc
    · refine ih (by omega) ?_ i hi hi19
      intro j hj hj19
      rcases Nat.eq_or_lt_of_le hj with hj' | hj'
      · subst hj'; exact hc.2
      · exact hP j (by omega) hj19
    · exact hP i hi hi19

theorem tcStrip_min (bl : List Nat) : ∀ len n, 4 ≤ n → n ≤ len → len ≤ 19 →
    (∀ i, n ≤ i → i < 19 → bl.getD (TREE_CODE_ORDER_TABLE.getD i 0) 0 = 0) →
    tcStrip bl len ≤ n := by
  intro len
  induction len with
  | zero => intro n _ _ _ _; simp [tcStrip]
  | succ n' ih =>
    intro n hn4 hnl hl19 hP
    rcases Nat.eq_or_lt_of_le hnl with hEq | hLt
    · subst hEq; exact tcStrip_le bl _
    · have hstep : tcStrip bl (n' + 1) = tcStrip bl n' := by
        show (if 4 < n' + 1 ∧ bl.getD (TREE_CODE_ORDER_TABLE.getD n' 0) 0 = 0 then
            tcStrip bl n' else n' + 1) = tcStrip bl n'
        rw [if_pos ⟨by omega, hP n' (by omega) (by omega)⟩]
      rw [hstep]
      exact ih n hn4 (by omega) (by omega) hP

/-- C8 counterexample: `calc_bit_lengths` can return trimmed arrays
(shorter than 19; the callers resize to 19 afterwards precisely for that
reason, and the in-source test obtains a length-3 distance array).  On the
18-entry array below — no `ZeroLong` symbol, so the trailing entry is
trimmed — with nonzero code lengths at positions 1 (order index 17) and
15 (order index 18), the stripping loop stops immediately at 18 because it
examines `TREE_CODE_ORDER_TABLE[17] = 1` first and never looks at order
index 18; yet position `TREE_CODE_ORDER_TABLE[18] = 15` holds a nonzero
length, so the computed value 18 does not satisfy the claimed zero-tail
property (the least valid `n` in `[4, 19]` is 19). -/
theorem calc_tc_lengths_short_counterexample :
    calc_tc_lengths_without_trailing_zeros
        [0, 2, 0, 0, 0, 0, 0, 0, 0, 0, 0, 0, 0, 0, 0, 4, 0, 0] = 18 ∧
    ([0, 2, 0, 0, 0, 0, 0, 0, 0, 0, 0, 0, 0, 0, 0, 4, 0, 0] : List Nat).getD
        (TREE_CODE_ORDER_TABLE.getD 18 0) 0 ≠ 0 := by
  decide

/-- C8 amended: for a code-length array with the full 19 entries, the
value computed by `calc_tc_lengths_without_trailing_zeros` (and assigned
to the header when no `TreeCodeCountMisprediction` fires) is the smallest
value `n` in `[4, 19]` such that for every `i ≥ n` (and `i < 19`) the code
length at position `TREE_CODE_ORDER_TABLE[i]` is zero.  For the shorter
arrays `calc_bit_lengths` can return, the loop starts at the array length
and never examines order indices at or beyond it, so minimality over the
19-entry view can fail (see the counterexample). -/
theorem calc_tc_lengths_least (bl : List Nat) (hlen : bl.length = 19) :
    (4 ≤ calc_tc_lengths_without_trailing_zeros bl ∧
      calc_tc_lengths_without_trailing_zeros bl ≤ 19) ∧
    (∀ i, calc_tc_lengths_without_trailing_zeros bl ≤ i → i < 19 →
      bl.getD (TREE_CODE_ORDER_TABLE.getD i 0) 0 = 0) ∧
    (∀ n, 4 ≤ n →
      (∀ i, n ≤ i → i < 19 → bl.getD (TREE_CODE_ORDER_TABLE.getD i 0) 0 = 0) →
      calc_tc_lengths_without_trailing_zeros bl ≤ n) := by
  unfold calc_tc_lengths_without_trailing_zeros
  rw [hlen]
  refine ⟨⟨tcStrip_ge bl 19 (by omega), tcStrip_le bl 19⟩, ?_, ?_⟩
  · exact tcStrip_zero_tail bl 19 (by omega) (fun i hi hi19 => by omega)
  · intro n hn4 hP
    rcases Nat.le_total n 19 with h | h
    · exact tcStrip_min bl 19 n hn4 h (by omega) hP
    · exact le_trans (tcStrip_le bl 19) h

/-- Witness for C8 at the all-zero 19-entry array: the computed length is
the minimum 4, the tail is all zeros, and 4 is minimal. -/
theorem calc_tc_lengths_least_witness :
    (4 ≤ calc_tc_lengths_without_trailing_zeros (List.replicate 19 0) ∧
      calc_tc_lengths_without_trailing_zeros (List.replicate 19 0) ≤ 19) ∧
    (∀ i, calc_tc_lengths_without_trailing_zeros (List.replicate 19 0) ≤ i → i < 19 →
      (List.replicate 19 0).getD (TREE_CODE_ORDER_TABLE.getD i 0) 0 = 0) ∧
    (∀ n, 4 ≤ n →
      (∀ i, n ≤ i → i < 19 →
        (List.replicate 19 0).getD (TREE_CODE_ORDER_TABLE.getD i 0) 0 = 0) →
      calc_tc_lengths_without_trailing_zeros (List.replicate 19 0) ≤ n) :=
  calc_tc_lengths_least (List.replicate 19 0) (by simp)

/-! ## Compression-level estimator: the very_far_matches flag -/

/-- Embedding of the `very_far_matches` assignment in
`PreflateCompLevelEstimatorState::recommend`
(preflate_complevel_estimator.rs lines 204-207), as a function of the
recorded `longest_dist_at_hop_0`, `longest_dist_at_hop_1_plus` and the
window size: `!(hop0 <= window - MIN_LOOKAHEAD) && hop1plus < window -
MIN_LOOKAHEAD` (the negation applies to the first comparison only). -/
def veryFarMatchesFlag (longestDistAtHop0 longestDistAtHop1Plus windowSize : Nat) : Bool :=
  (!(decide (longestDistAtHop0 ≤ windowSize - MIN_LOOKAHEAD))) &&
    decide (longestDistAtHop1Plus < windowSize - MIN_LOOKAHEAD)

/-- C3 counterexample: with window 32768, `longest_dist_at_hop_0 = 0` and
`longest_dist_at_hop_1_plus = 32507` (a reference beyond
`window − 262 = 32506`, found at hop ≥ 1), the recorded flag is `false`
even though `max(hop0, hop1plus) > window − MIN_LOOKAHEAD`: the claimed
equivalence fails. -/
theorem veryFarMatches_counterexample :
    veryFarMatchesFlag 0 32507 32768 = false ∧
      32768 - MIN_LOOKAHEAD < max 0 32507 := by
  decide

/-- C3 amended: after the estimator runs, `very_far_matches` is true iff
`longest_dist_at_hop_0 > window − MIN_LOOKAHEAD` and simultaneously
`longest_dist_at_hop_1_plus < window − MIN_LOOKAHEAD` (the source negates
only the hop-0 comparison), not iff some recorded distance exceeds
`window − 262`. -/
theorem veryFarMatches_formula (h0 h1 w : Nat) :
    veryFarMatchesFlag h0 h1 w = true ↔
      (w - MIN_LOOKAHEAD < h0 ∧ h1 < w - MIN_LOOKAHEAD) := by
  unfold veryFarMatchesFlag
  simp [Bool.and_eq_true]

/-! ## Statistical codec surface and the Huffman-header count corrections -/

/-- Modelled from the spec: the closed set of misprediction kinds of the
abstract codec surface (§4.4); `statistical_codec.rs` is not among the
provided sources. -/
inductive CodecMis where
  | LiteralPredictionWrong
  | ReferencePredictionWrong
  | LiteralCountMisprediction
  | DistanceCountMisprediction
  | TreeCodeCountMisprediction
  | IrregularLen258
  | NonZeroPadding
deriving DecidableEq

/-- Modelled from the spec: events of the abstract codec surface (§4.4 and
§6): the encode path appends `(kind, bool)` events and raw bit groups in
order, and the decode path must consume the identical sequence in
lockstep. -/
inductive CodecEvent where
  | mis (kind : CodecMis) (b : Bool)
  | val (bits : Nat) (v : Nat)
deriving DecidableEq

/-- Modelled from the spec: `decode_misprediction(kind)` consumes the next
event, which must be a misprediction of the same kind (lockstep). -/
def decodeMis (kind : CodecMis) : List CodecEvent → Option (Bool × List CodecEvent)
  | CodecEvent.mis k b :: rest => if k = kind then some (b, rest) else none
  | _ => none

/-- Modelled from the spec: `decode_value(n_bits)` consumes the next
event, which must be a raw bit group of the same width (lockstep). -/
def decodeVal (bits : Nat) : List CodecEvent → Option (Nat × List CodecEvent)
  | CodecEvent.val b v :: rest => if b = bits then some (v, rest) else none
  | _ => none

/-- `Vec::resize(n, 0)` on a byte vector: truncate to `n`, or pad with
zeros up to `n`. -/
def resizeZero (l : List Nat) (n : Nat) : List Nat :=
  l.take n ++ List.replicate (n - l.length) 0

/-- The literal/distance count fragment of `predict_tree_for_block`
(tree_predictor.rs lines 22-60), parameterized by the two predicted
bit-length arrays `litPred` and `distPred` (the results of
`calc_bit_lengths`, which lives outside the provided sources) and the
actual header counts.  Emits `LiteralCountMisprediction` and, when set,
the actual `num_literals − 257` in 5 bits, resizing the predicted literal
array; then the same for the distance codes (`num_dist − 1`, 5 bits);
returns the emitted events together with the concatenated corrected
bit-length vector. -/
def predictTreeCounts (litPred distPred : List Nat) (numLiterals numDist : Nat) :
    List CodecEvent × List Nat :=
  let e1 := CodecEvent.mis CodecMis.LiteralCountMisprediction (litPred.length != numLiterals)
  let p2 : List CodecEvent × List Nat :=
    if litPred.length ≠ numLiterals then
      ([CodecEvent.val 5 (numLiterals - 257)], resizeZero litPred numLiterals)
    else ([], litPred)
  let e3 := CodecEvent.mis CodecMis.DistanceCountMisprediction (distPred.length != numDist)
  let p4 : List CodecEvent × List Nat :=
    if distPred.length ≠ numDist then
      ([CodecEvent.val 5 (numDist - 1)], resizeZero distPred numDist)
    else ([], distPred)
  (e1 :: p2.1 ++ e3 :: p4.1, p2.2 ++ p4.2)

/-- The count-related fields of the header rebuilt by
`recreate_tree_for_block`, together with the unconsumed events. -/
structure TreeCounts where
  numLiterals : Nat
  numDist : Nat
  bitLengths : List Nat
  rest : List CodecEvent
deriving DecidableEq

/-- The literal/distance count fragment of `recreate_tree_for_block`
(tree_predictor.rs lines 105-126), parameterized like `predictTreeCounts`.
When `LiteralCountMisprediction` decodes as set the literal array is
resized to the transmitted count; `num_literals` is the literal array's
length.  When `DistanceCountMisprediction` decodes as set, the source
executes `bit_lengths.resize(corrected_num_distance, 0)` — it resizes the
literal-side vector `bit_lengths`, not `distance_code_lengths`, and then
sets `num_dist` to `distance_code_lengths.len()`, which the correction
never changed; this embedding preserves that behaviour. -/
def recreateTreeCounts (litPred distPred : List Nat) (events : List CodecEvent) :
    Option TreeCounts := do
  let (b1, ev1) ← decodeMis CodecMis.LiteralCountMisprediction events
  let (lit, ev2) ←
    if b1 then do
      let (v, ev) ← decodeVal 5 ev1
      pure (resizeZero litPred (v + 257), ev)
    else pure (litPred, ev1)
  let numLiterals := lit.length
  let (b2, ev3) ← decodeMis CodecMis.DistanceCountMisprediction ev2
  let (lit2, ev4) ←
    if b2 then do
      let (v, ev) ← decodeVal 5 ev3
      pure (resizeZero lit (v + 1), ev)
    else pure (lit, ev3)
  let numDist := distPred.length
  pure ⟨numLiterals, numDist, lit2 ++ distPred, ev4⟩

/-- C2: evaluation of the decode path at a concrete input where
`DistanceCountMisprediction` decodes as set with transmitted value
`v = 5`.  Predicted literal lengths `[3, 3]`, predicted distance lengths
`[2, 2, 2]`: the code resizes the literal-side vector to 6 entries
(yielding combined bit lengths `[3,3,0,0,0,0,2,2,2]`) and returns
`num_dist = 3`, the predicted length — not `v + 1 = 6`, and the
literal-length portion of the header is affected, contrary to the
claim. -/
theorem recreateTree_distance_resize_bug :
    recreateTreeCounts [3, 3] [2, 2, 2]
        [CodecEvent.mis CodecMis.LiteralCountMisprediction false,
         CodecEvent.mis CodecMis.DistanceCountMisprediction true,
         CodecEvent.val 5 5]
      = some ⟨2, 3, [3, 3, 0, 0, 0, 0, 2, 2, 2], []⟩ ∧
    (3 : Nat) ≠ 5 + 1 := by
  exact ⟨rfl, by decide⟩

set_option maxRecDepth 4096 in
/-- C1: the encode/decode round trip of the tree predictor fails on a
concrete supported input.  Original dynamic header with
`num_literals = 257` and `num_dist = 4`; predicted literal lengths of
length 257 (so the literal count is predicted correctly) and predicted
distance lengths `[2, 2, 2]`.  The encode path emits exactly the events
(no literal misprediction; distance misprediction with `num_dist − 1 = 3`
in 5 bits); the decode path consumes exactly those events (nothing is
left over) but rebuilds a header with `num_dist = 3 ≠ 4` and a corrupted
combined bit-length vector, so the original header is not reproduced. -/
theorem tree_roundtrip_failure :
    (predictTreeCounts (List.replicate 257 1) [2, 2, 2] 257 4).1
      = [CodecEvent.mis CodecMis.LiteralCountMisprediction false,
         CodecEvent.mis CodecMis.DistanceCountMisprediction true,
         CodecEvent.val 5 3] ∧
    recreateTreeCounts (List.replicate 257 1) [2, 2, 2]
        [CodecEvent.mis CodecMis.LiteralCountMisprediction false,
         CodecEvent.mis CodecMis.DistanceCountMisprediction true,
         CodecEvent.val 5 3]
      = some ⟨257, 3, [1, 1, 1, 1, 2, 2, 2], []⟩ ∧
    (3 : Nat) ≠ 4 := by
  refine ⟨rfl, rfl, by decide⟩

end Preflate
